import Mathlib

/-!
Shallow embedding of the ragbits Vector Store subsystem:

* `QdrantVectorStore` (`ragbits/core/vector_stores/qdrant.py`): the store,
  retrieve, remove and list operations, the filter translation
  `_create_qdrant_filter`, and the pickling support `__reduce__`.
* `LLMOptions.__or__` (`ragbits/core/llms/clients/base.py`): the options
  overlay merge.

The Qdrant backend itself is an external collaborator; its behaviour is
modelled as an explicit state (`ClientState`) with the operations listed in
the spec (collection existence check, create-collection, upsert-points,
delete-points, query-points, count).  Repository code that the operations
use but that is not part of the four source files (the `flatten_dict`
helper, the `VectorStoreOptions` bundle and the `_create_embeddings`
delegate) is modelled from the spec, as marked in the doc comments.
-/

namespace Ragbits

/-- Scalar leaf values appearing in metadata filters (Python str, int or bool). -/
inductive Scalar where
  | str : String → Scalar
  | int : Int → Scalar
  | bool : Bool → Scalar
deriving DecidableEq

/-- A value in a nested equality-filter query (and in entry metadata): either a
scalar leaf or a nested string-keyed mapping. -/
inductive WhereVal where
  | leaf : Scalar → WhereVal
  | node : List (String × WhereVal) → WhereVal

/-- A nested equality-filter query: a string-keyed mapping of `WhereVal`. -/
abbrev WhereQuery := List (String × WhereVal)

instance : Inhabited Scalar := ⟨Scalar.bool false⟩

instance : Inhabited WhereVal := ⟨WhereVal.node []⟩

/-- Modelled from the spec: `flatten_dict` from
`ragbits.core.utils.dict_transformations` (repository code not included under
src).  Nested keys are joined into dotted paths deterministically (parent key,
a dot, child key, recursively), in iteration order; `pre` is the
already-joined path of the enclosing keys, dot-terminated when nonempty. -/
def flattenPairs (pre : String) : List (String × WhereVal) → List (String × Scalar)
  | [] => []
  | (k, WhereVal.leaf v) :: rest => (pre ++ k, v) :: flattenPairs pre rest
  | (k, WhereVal.node fs) :: rest => flattenPairs (pre ++ k ++ ".") fs ++ flattenPairs pre rest

/-- A single Qdrant field-equals-value condition (`FieldCondition` with a
`MatchValue`). -/
structure FieldCondition where
  key : String
  matchValue : Scalar
deriving DecidableEq

/-- A Qdrant filter: the conjunction (`must`) of its field conditions. -/
structure Filter where
  must : List FieldCondition
deriving DecidableEq

/-- Translation `QdrantVectorStore._create_qdrant_filter`: flatten the nested query and
emit one field-equals-value condition per leaf, keyed by the dotted path under
the fixed `metadata.` namespace prefix. -/
def createQdrantFilter (w : WhereQuery) : Filter :=
  Filter.mk ((flattenPairs "" w).map fun kv => FieldCondition.mk ("metadata." ++ kv.1) kv.2)

/-- Spec-side description of the flattening: the scalar leaves of the nested
query, each paired with the list of keys on its path from the root, in
iteration order. -/
def specLeaves : List (String × WhereVal) → List (List String × Scalar)
  | [] => []
  | (k, WhereVal.leaf v) :: rest => ([k], v) :: specLeaves rest
  | (k, WhereVal.node fs) :: rest =>
      (specLeaves fs).map (fun pv => (k :: pv.1, pv.2)) ++ specLeaves rest

/-- Dot-joining of a nonempty path of keys, as the spec words it. -/
def joinPath : List String → String
  | [] => ""
  | [k] => k
  | k :: rest => k ++ "." ++ joinPath rest

/-- A Python field value as produced by `dataclasses.asdict` on an
`LLMOptions` instance: the NOT_GIVEN sentinel, None, or a concrete scalar. -/
inductive PyVal where
  | notGiven : PyVal
  | null : PyVal
  | int : Int → PyVal
  | rat : ℚ → PyVal
  | str : String → PyVal
  | bool : Bool → PyVal
deriving DecidableEq

/-- Merge `LLMOptions.__or__` from `ragbits/core/llms/clients/base.py`.  Both
operands are represented by their `asdict` association lists (field name,
value), in field order.  For each key of `base`, the result takes `other`'s
value when it is present and not the NOT_GIVEN sentinel, else `base`'s value
(`other_dict.get(key)` yields None for a missing key, which is not a
`NotGiven` instance, so the `.get(key, self_dict[key])` default applies).
A new list is built; neither operand is changed (the embedding is pure). -/
def llmOr (base other : List (String × PyVal)) : List (String × PyVal) :=
  base.map fun kv =>
    match List.lookup kv.1 other with
    | some v => if v = PyVal.notGiven then kv else (kv.1, v)
    | none => kv

/-- Enumeration `EmbeddingType` from `ragbits.core.vector_stores.base`: which payload of an
entry is embedded. -/
inductive EmbeddingType where
  | text : EmbeddingType
  | image : EmbeddingType
deriving DecidableEq

/-- Entry model `VectorStoreEntry`: identity, optional text payload, optional image
payload (bytes) and a metadata mapping.  The UUID identity is modelled as a
`String`, so Python's `str(entry.id)` is the identity function on the model. -/
structure VectorStoreEntry where
  id : String
  text : Option String
  image : Option (List Nat)
  metadata : WhereQuery

/-- The injected Embedder capability (external collaborator, spec section 6):
order-preserving batch embedding is modelled pointwise by a per-payload
function. -/
structure Embedder where
  embedText : String → List ℚ
  embedImage : List Nat → List ℚ

/-- Modelled from the spec: a field of an options bundle is independently
the "not given" sentinel, an explicit null, or a concrete value
(spec section 3, Options; section 4.1).  The sentinel and None are both falsy
in Python, as is a zero value. -/
inductive OptField (α : Type) where
  | notGiven : OptField α
  | null : OptField α
  | value : α → OptField α
deriving DecidableEq

/-- Modelled from the spec: `VectorStoreOptions` (repository code not included
under src) with the fields the spec names: the result count limit `k` and the
maximum acceptable distance `max_distance`. -/
structure VectorStoreOptions where
  k : OptField Nat
  maxDistance : OptField ℚ
deriving DecidableEq

/-- Modelled from the spec: the per-field overlay of the options merge
(section 4.1): `override`'s value wins unless it is the "not given"
sentinel. -/
def overlayField {α : Type} (base override : OptField α) : OptField α :=
  match override with
  | OptField.notGiven => base
  | o => o

/-- Modelled from the spec: `VectorStoreOptions.__or__`, the field-wise
overlay used by `retrieve` (`self.default_options | options`). -/
def VectorStoreOptions.or (base override : VectorStoreOptions) : VectorStoreOptions :=
  VectorStoreOptions.mk (overlayField base.k override.k)
    (overlayField base.maxDistance override.maxDistance)

/-- Qdrant distance metric selector. -/
inductive Distance where
  | cosine : Distance
  | dot : Distance
  | euclid : Distance
deriving DecidableEq

/-- A stored Qdrant point: id (`str(entry.id)`), vector, and payload.  The
payload is `entry.model_dump(exclude_none=True)`, which
`VectorStoreEntry.model_validate` inverts, so it is modelled as the entry
itself. -/
structure Point where
  id : String
  vector : List ℚ
  payload : VectorStoreEntry

/-- A backend collection: vector size and distance metric fixed at creation,
plus the stored points in insertion order. -/
structure Collection where
  vectorSize : Nat
  distance : Distance
  points : List Point

/-- The backend server state seen through the client connection: the named
collections.  (The connection parameters used to create the client live on
the store instance, mirroring `AsyncQdrantClient._init_options`.) -/
structure ClientState where
  collections : List (String × Collection)

/-- Backend collection lookup by name. -/
def getCollection (st : ClientState) (name : String) : Option Collection :=
  List.lookup name st.collections

/-- Backend `collection_exists`. -/
def collectionExists (st : ClientState) (name : String) : Bool :=
  (getCollection st name).isSome

/-- Replace the first binding of `n` in an association list, or append one. -/
def upsertAssoc : List (String × Collection) → String → Collection → List (String × Collection)
  | [], n, c => [(n, c)]
  | (k, v) :: rest, n, c =>
      if k = n then (k, c) :: rest else (k, v) :: upsertAssoc rest n c

/-- Write a collection into the backend state under its name. -/
def setCollection (st : ClientState) (name : String) (c : Collection) : ClientState :=
  ClientState.mk (upsertAssoc st.collections name c)

/-- Backend `create_collection(name, size, distance)`: a fresh empty
collection. -/
def createCollection (st : ClientState) (name : String) (size : Nat) (d : Distance) : ClientState :=
  setCollection st name (Collection.mk size d [])

/-- Backend upsert of a single point: replace the point with the same id in
place, else append (idempotent upsert keyed by id). -/
def upsertPoint (pts : List Point) (p : Point) : List Point :=
  if pts.any fun q => q.id == p.id then
    pts.map fun q => if q.id == p.id then p else q
  else pts ++ [p]

/-- Backend `upload_points`: upsert each point, in order, into the named
collection; uploading into a missing collection is a backend failure. -/
def uploadPoints (st : ClientState) (name : String) (pts : List Point) : Except String ClientState :=
  match getCollection st name with
  | none => Except.error "collection not found"
  | some c => Except.ok (setCollection st name
      (Collection.mk c.vectorSize c.distance (pts.foldl upsertPoint c.points)))

/-- Backend `count`: number of points in the named collection. -/
def countPoints (st : ClientState) (name : String) : Nat :=
  match getCollection st name with
  | none => 0
  | some c => c.points.length

/-- Path lookup inside a nested metadata mapping. -/
def lookupPath : List (String × WhereVal) → List String → Option Scalar
  | m, [k] =>
      match List.lookup k m with
      | some (WhereVal.leaf v) => some v
      | _ => none
  | m, k :: rest =>
      match List.lookup k m with
      | some (WhereVal.node fs) => lookupPath fs rest
      | _ => none
  | _, [] => none

/-- Whether an entry's payload satisfies one field condition: the key must be
a dotted path under `metadata.` that resolves to the matched scalar. -/
def matchCondition (en : VectorStoreEntry) (cond : FieldCondition) : Bool :=
  match cond.key.splitOn "." with
  | "metadata" :: path => decide (lookupPath en.metadata path = some cond.matchValue)
  | _ => false

/-- Whether an entry satisfies every condition of a filter (conjunction). -/
def matchesFilter (en : VectorStoreEntry) (f : Filter) : Bool :=
  f.must.all fun cond => matchCondition en cond

/-- The arguments the store layer passes to the backend `query_points`
call. -/
structure QueryPointsArgs where
  collectionName : String
  query : Option (List ℚ)
  queryFilter : Option Filter
  limit : OptField Nat
  offset : Nat
  scoreThreshold : Option ℚ

/-- Backend `query_points` (external collaborator, spec section 6),
parametrised by the backend's similarity scoring function `sim`.  Querying a
missing collection is a backend failure — which is why `list` guards with
`collection_exists` first.  Without a query vector this is a scan: filter,
skip `offset`, take `limit`.  With a query vector, each filtered point is
scored, points below the score threshold are dropped, and `limit` points are
returned in backend-native order. -/
def execQueryPoints (sim : List ℚ → List ℚ → ℚ) (st : ClientState)
    (a : QueryPointsArgs) : Except String (List (Point × ℚ)) :=
  match getCollection st a.collectionName with
  | none => Except.error "collection not found"
  | some c =>
      match a.limit with
      | OptField.value lim =>
          let filtered := match a.queryFilter with
            | none => c.points
            | some f => c.points.filter fun p => matchesFilter p.payload f
          match a.query with
          | none => Except.ok (((filtered.drop a.offset).take lim).map fun p => (p, (0 : ℚ)))
          | some qv =>
              let scored := filtered.map fun p => (p, sim qv p.vector)
              let passing := match a.scoreThreshold with
                | none => scored
                | some t => scored.filter fun pr => decide (t ≤ pr.2)
              Except.ok ((passing.drop a.offset).take lim)
      | _ => Except.error "invalid limit"

/-- Constructor state `QdrantVectorStore.__init__`: the configuration a store instance carries.
`clientParams` models the connection parameters the injected
`AsyncQdrantClient` was created from (`client._init_options`); the backend
server state is passed to each operation separately. -/
structure QdrantVectorStore where
  clientParams : List (String × String)
  indexName : String
  embedder : Embedder
  embeddingType : EmbeddingType
  distanceMethod : Distance
  defaultOptions : VectorStoreOptions

/-- Whether an entry carries the payload required by the embedding type. -/
def requiredPayload (ty : EmbeddingType) (en : VectorStoreEntry) : Bool :=
  match ty with
  | EmbeddingType.text => en.text.isSome
  | EmbeddingType.image => en.image.isSome

/-- Modelled from the spec: `_create_embeddings` of
`VectorStoreWithExternalEmbedder` (repository code not included under src),
per spec section 4.2: entries lacking the payload required by the embedding
type are silently excluded; the rest are embedded, keyed by entry identity. -/
def createEmbeddings (e : Embedder) (ty : EmbeddingType)
    (entries : List VectorStoreEntry) : List (String × List ℚ) :=
  entries.filterMap fun en =>
    match ty with
    | EmbeddingType.text => en.text.map fun t => (en.id, e.embedText t)
    | EmbeddingType.image => en.image.map fun img => (en.id, e.embedImage img)

/-- Lookup in a Python-dict-like association list: the last binding of a key
wins, as in a dict built left to right. -/
def dlookup {α : Type} (l : List (String × α)) (k : String) : Option α :=
  List.lookup k l.reverse

/-- Operation `QdrantVectorStore.store`: no-op on an empty batch; otherwise embed the
entries, create the collection if absent — sized by the first embedding,
where `next(iter(embeddings.values()))` on an empty embedding map raises
(modelled as the `StopIteration` error) — and upsert one point per entry
whose identity has an embedding. -/
def QdrantVectorStore.store (s : QdrantVectorStore) (st : ClientState)
    (entries : List VectorStoreEntry) : Except String ClientState :=
  if entries.isEmpty then Except.ok st
  else
    let embeddings := createEmbeddings s.embedder s.embeddingType entries
    let prepared : Except String ClientState :=
      if collectionExists st s.indexName then Except.ok st
      else
        match embeddings.head? with
        | none => Except.error "StopIteration"
        | some kv => Except.ok (createCollection st s.indexName kv.2.length s.distanceMethod)
    match prepared with
    | Except.error e => Except.error e
    | Except.ok st1 =>
        let pts := entries.filterMap fun en =>
          (dlookup embeddings en.id).map fun vec => Point.mk en.id vec en
        uploadPoints st1 s.indexName pts

/-- The options `retrieve` works with:
`(self.default_options | options) if options else self.default_options`
(an options instance is always truthy in Python, so the test is presence). -/
def mergedOptions (s : QdrantVectorStore) (options : Option VectorStoreOptions) :
    VectorStoreOptions :=
  match options with
  | some o => s.defaultOptions.or o
  | none => s.defaultOptions

/-- The score threshold `retrieve` computes:
`1 - merged_options.max_distance if merged_options.max_distance else None`.
Python truthiness makes the condition false for the NOT_GIVEN sentinel, for
None and for a zero value alike. -/
def scoreThresholdOf (merged : VectorStoreOptions) : Option ℚ :=
  match merged.maxDistance with
  | OptField.value d => if d = 0 then none else some (1 - d)
  | _ => none

/-- The backend `query_points` arguments `retrieve` builds: the embedded query
text, limit `k`, the computed score threshold, no filter, no offset. -/
def retrieveArgs (s : QdrantVectorStore) (text : String)
    (options : Option VectorStoreOptions) : QueryPointsArgs :=
  let m := mergedOptions s options
  QueryPointsArgs.mk s.indexName (some (s.embedder.embedText text)) none m.k 0
    (scoreThresholdOf m)

/-- A query result: the entry rebuilt from the payload, the backend score and
the raw vector. -/
structure VectorStoreResult where
  entry : VectorStoreEntry
  score : ℚ
  vector : List ℚ

/-- Operation `QdrantVectorStore.retrieve`: embed the query text and issue the backend
similarity search with the merged options; no collection-existence check is
performed. -/
def QdrantVectorStore.retrieve (s : QdrantVectorStore) (sim : List ℚ → List ℚ → ℚ)
    (st : ClientState) (text : String) (options : Option VectorStoreOptions) :
    Except String (List VectorStoreResult) :=
  (execQueryPoints sim st (retrieveArgs s text options)).map fun res =>
    res.map fun pr => VectorStoreResult.mk pr.1.payload pr.2 pr.1.vector

/-- Operation `QdrantVectorStore.remove`: backend delete by id (`str(id)` is the
identity on the model).  Deleting ids that are not present removes nothing
and raises nothing (the code additionally suppresses `KeyError`); deleting
from a missing collection is a backend failure. -/
def QdrantVectorStore.remove (s : QdrantVectorStore) (st : ClientState)
    (ids : List String) : Except String ClientState :=
  match getCollection st s.indexName with
  | none => Except.error "collection not found"
  | some c => Except.ok (setCollection st s.indexName
      (Collection.mk c.vectorSize c.distance
        (c.points.filter fun p => !(ids.contains p.id))))

/-- The backend `query_points` arguments `list` builds once the collection
exists: `limit = limit or count` (Python: an unset or zero limit falls back
to the collection's current count), the translated filter, and the given
offset. -/
def listArgs (s : QdrantVectorStore) (st : ClientState) (w : Option WhereQuery)
    (limit : Option Nat) (offset : Nat) : QueryPointsArgs :=
  let cnt := countPoints st s.indexName
  let lim := match limit with
    | none => cnt
    | some l => if l = 0 then cnt else l
  QueryPointsArgs.mk s.indexName none (w.map createQdrantFilter) (OptField.value lim)
    offset none

/-- Operation `QdrantVectorStore.list`: empty result if the collection does not exist;
otherwise a backend scan with the translated filter, the effective limit and
the offset, returning the entries rebuilt from the payloads. -/
def QdrantVectorStore.list (s : QdrantVectorStore) (sim : List ℚ → List ℚ → ℚ)
    (st : ClientState) (w : Option WhereQuery) (limit : Option Nat) (offset : Nat) :
    Except String (List VectorStoreEntry) :=
  if collectionExists st s.indexName then
    (execQueryPoints sim st (listArgs s st w limit offset)).map fun res =>
      res.map fun pr => pr.1.payload
  else Except.ok []

/-- The tuple `__reduce__` returns for reconstruction: client connection
parameters, index name, embedder, distance method and default options.  Note
that the embedding type is not part of it. -/
structure ReduceArgs where
  clientParams : List (String × String)
  indexName : String
  embedder : Embedder
  distanceMethod : Distance
  defaultOptions : VectorStoreOptions

/-- Pickling `QdrantVectorStore.__reduce__`: the argument tuple handed to
`_reconstruct`. -/
def QdrantVectorStore.reduceArgs (s : QdrantVectorStore) : ReduceArgs :=
  ReduceArgs.mk s.clientParams s.indexName s.embedder s.distanceMethod s.defaultOptions

/-- Function `_reconstruct` from `QdrantVectorStore.__reduce__`: rebuild the store by
calling `__init__` with the tuple's fields.  `embedding_type` is not passed,
so the `__init__` default `EmbeddingType.TEXT` applies. -/
def reconstructStore (a : ReduceArgs) : QdrantVectorStore :=
  QdrantVectorStore.mk a.clientParams a.indexName a.embedder EmbeddingType.text
    a.distanceMethod a.defaultOptions

/-- The filtered view of a collection's points under an optional where
query, as the backend scan sees it. -/
def filteredPoints (st : ClientState) (name : String) (w : Option WhereQuery) : List Point :=
  match getCollection st name with
  | none => []
  | some c =>
      match w with
      | none => c.points
      | some wq => c.points.filter fun p => matchesFilter p.payload (createQdrantFilter wq)

/-- The points of the named collection (empty when absent). -/
def pointsOf (st : ClientState) (name : String) : List Point :=
  match getCollection st name with
  | none => []
  | some c => c.points

/-- Well-formedness of a backend state: every stored point's id is the id of
its payload entry (which `store` guarantees, writing `str(entry.id)`). -/
def stateWF (st : ClientState) : Bool :=
  st.collections.all fun nc => nc.2.points.all fun p => p.payload.id == p.id

/-- The points a store call uploads: one per entry whose identity has an
embedding (a derived view of the generator inside `store`, used by the
lemmas). -/
def storePoints (s : QdrantVectorStore) (entries : List VectorStoreEntry) : List Point :=
  entries.filterMap fun en =>
    (dlookup (createEmbeddings s.embedder s.embeddingType entries) en.id).map
      fun vec => Point.mk en.id vec en

/-- Whether an Except value is a success. -/
def isOkE {α : Type} : Except String α → Bool
  | Except.ok _ => true
  | Except.error _ => false

/-- A concrete embedder used by the concrete instances below. -/
def qEmbedder : Embedder :=
  Embedder.mk (fun _ => [1, 0]) (fun _ => [0, 1])

/-- The spec's example default options: k given as 5, max distance unset. -/
def defaultVSOptions : VectorStoreOptions :=
  VectorStoreOptions.mk (OptField.value 5) OptField.notGiven

/-- Options carrying the concrete max distance 0. -/
def zeroDistOptions : VectorStoreOptions :=
  VectorStoreOptions.mk (OptField.value 5) (OptField.value 0)

/-- A concrete text-embedding store. -/
def sText : QdrantVectorStore :=
  QdrantVectorStore.mk [("url", "http://localhost")] "idx" qEmbedder
    EmbeddingType.text Distance.cosine defaultVSOptions

/-- A concrete image-embedding store. -/
def sImage : QdrantVectorStore :=
  QdrantVectorStore.mk [("url", "http://localhost")] "idx" qEmbedder
    EmbeddingType.image Distance.cosine defaultVSOptions

/-- A concrete store whose default options carry max distance 0. -/
def sZeroDist : QdrantVectorStore :=
  QdrantVectorStore.mk [("url", "http://localhost")] "idx" qEmbedder
    EmbeddingType.text Distance.cosine zeroDistOptions

/-- An entry with only a text payload. -/
def textEntry : VectorStoreEntry :=
  VectorStoreEntry.mk "t1" (some "hello") none []

/-- An entry with only an image payload. -/
def imageEntry : VectorStoreEntry :=
  VectorStoreEntry.mk "e1" none (some [1, 2, 3]) []

/-- A backend with no collections: the ABSENT state. -/
def emptyState : ClientState := ClientState.mk []

/-- A concrete similarity function (dot product) standing for the backend's
scoring. -/
def simDot : List ℚ → List ℚ → ℚ :=
  fun v w => ((v.zip w).map fun p => p.1 * p.2).sum

/-- The spec's first flattening example: a query with one nested leaf. -/
def exFilterNested : WhereQuery :=
  [("category", WhereVal.node [("sub", WhereVal.leaf (Scalar.str "x"))])]

/-- The spec's second flattening example: two top-level scalar leaves. -/
def exFilterFlat : WhereQuery :=
  [("a", WhereVal.leaf (Scalar.int 1)), ("b", WhereVal.leaf (Scalar.int 2))]

/-- A one-point collection holding the text entry. -/
def cOne : Collection :=
  Collection.mk 2 Distance.cosine [Point.mk "t1" [1, 0] textEntry]

/-- A backend holding the one-point collection under the index name. -/
def oneState : ClientState := ClientState.mk [("idx", cOne)]

/-- The spec's overlay example default, as an `asdict` association list. -/
def llmDefaultsEx : List (String × PyVal) :=
  [("k", PyVal.int 5), ("max_distance", PyVal.notGiven)]

/-- The spec's overlay example override, as an `asdict` association list. -/
def llmOverrideEx : List (String × PyVal) :=
  [("k", PyVal.notGiven), ("max_distance", PyVal.rat (1 / 5))]

theorem lookup_isSome_iff {α : Type} (l : List (String × α)) (k : String) :
    (List.lookup k l).isSome = true ↔ k ∈ l.map Prod.fst := by
  induction l with
  | nil => simp [List.lookup]
  | cons kv rest ih =>
    cases h : k == kv.1 with
    | true =>
      have : k = kv.1 := by exact beq_iff_eq.mp h
      simp [List.lookup, h, this]
    | false =>
      have : ¬ k = kv.1 := by
        intro he
        rw [he] at h
        simp at h
      simp [List.lookup, h, ih, this]

theorem lookup_mem {α : Type} {l : List (String × α)} {k : String} {v : α}
    (h : List.lookup k l = some v) : (k, v) ∈ l := by
  induction l with
  | nil => simp [List.lookup] at h
  | cons kv rest ih =>
    rw [List.lookup] at h
    cases hb : k == kv.1 with
    | true =>
      rw [hb] at h
      have hk : k = kv.1 := beq_iff_eq.mp hb
      have hv : kv.2 = v := by
        simpa using h
      have hx : (k, v) = kv := by
        rw [hk, ← hv]
      exact List.mem_cons.mpr (Or.inl hx)
    | false =>
      rw [hb] at h
      exact List.mem_cons.mpr (Or.inr (ih h))

theorem lookup_upsertAssoc_self (l : List (String × Collection)) (n : String) (c : Collection) :
    List.lookup n (upsertAssoc l n c) = some c := by
  induction l with
  | nil => simp [upsertAssoc, List.lookup]
  | cons kv rest ih =>
    by_cases h : kv.1 = n
    · simp [upsertAssoc, h, List.lookup]
    · have hb : (n == kv.1) = false := by
        simp [beq_iff_eq]
        intro he
        exact h he.symm
      simp [upsertAssoc, h, List.lookup, hb, ih]

theorem upsertAssoc_of_lookup_eq {l : List (String × Collection)} {n : String} {c : Collection}
    (h : List.lookup n l = some c) : upsertAssoc l n c = l := by
  induction l with
  | nil => simp [List.lookup] at h
  | cons kv rest ih =>
    obtain ⟨k1, v1⟩ := kv
    rw [List.lookup] at h
    cases hb : n == k1 with
    | true =>
      rw [hb] at h
      have hk : k1 = n := (beq_iff_eq.mp hb).symm
      have hv : v1 = c := by simpa using h
      subst hk
      subst hv
      simp [upsertAssoc]
    | false =>
      rw [hb] at h
      have hk : ¬ k1 = n := by
        intro he
        rw [he] at hb
        simp at hb
      simp [upsertAssoc, hk, ih h]

theorem mem_upsertAssoc {l : List (String × Collection)} {n : String} {c : Collection}
    {x : String × Collection} (h : x ∈ upsertAssoc l n c) : x ∈ l ∨ x = (n, c) := by
  induction l with
  | nil =>
    simp [upsertAssoc] at h
    right
    exact h
  | cons kv rest ih =>
    by_cases hk : kv.1 = n
    · simp [upsertAssoc, hk] at h
      rcases h with h | h
      · right
        rw [h, ← hk]
      · exact Or.inl (List.mem_cons.mpr (Or.inr h))
    · simp [upsertAssoc, hk] at h
      rcases h with h | h
      · exact Or.inl (List.mem_cons.mpr (Or.inl h))
      · rcases ih h with h2 | h2
        · exact Or.inl (List.mem_cons.mpr (Or.inr h2))
        · exact Or.inr h2

theorem mem_ids_upsertPoint (l : List Point) (p : Point) (x : String) :
    x ∈ (upsertPoint l p).map Point.id ↔ x ∈ l.map Point.id ∨ x = p.id := by
  unfold upsertPoint
  cases h : l.any fun q => q.id == p.id with
  | true =>
    have hpin : p.id ∈ l.map Point.id := by
      rcases List.any_eq_true.mp h with ⟨q, hq, hqid⟩
      have : q.id = p.id := beq_iff_eq.mp hqid
      exact this ▸ List.mem_map_of_mem Point.id hq
    have hmap : (l.map fun q => if q.id == p.id then p else q).map Point.id = l.map Point.id := by
      rw [List.map_map]
      apply List.map_congr_left
      intro q _
      by_cases hq : q.id = p.id
      · simp [hq]
      · simp [hq]
    simp only [h, if_true, hmap]
    constructor
    · intro hx
      left
      exact hx
    · intro hx
      rcases hx with hx | hx
      · exact hx
      · exact hx ▸ hpin
  | false =>
    simp [h]

theorem mem_ids_foldl_upsert (pts : List Point) (base : List Point) (x : String) :
    x ∈ ((pts.foldl upsertPoint base).map Point.id) ↔
      x ∈ base.map Point.id ∨ x ∈ pts.map Point.id := by
  induction pts generalizing base with
  | nil => simp
  | cons p rest ih =>
    simp only [List.foldl_cons, ih, mem_ids_upsertPoint, List.map_cons, List.mem_cons]
    constructor
    · intro hx
      rcases hx with (hx | hx) | hx
      · left; exact hx
      · right; left; exact hx
      · right; right; exact hx
    · intro hx
      rcases hx with hx | hx | hx
      · left; left; exact hx
      · left; right; exact hx
      · right; exact hx

theorem wf_upsertPoint {l : List Point} {p : Point}
    (hl : ∀ q ∈ l, q.payload.id = q.id) (hp : p.payload.id = p.id) :
    ∀ q ∈ upsertPoint l p, q.payload.id = q.id := by
  intro q hq
  unfold upsertPoint at hq
  cases h : l.any fun r => r.id == p.id with
  | true =>
    rw [h] at hq
    simp only [if_true] at hq
    rcases List.mem_map.mp hq with ⟨r, hr, hrq⟩
    by_cases hid : r.id = p.id
    · rw [if_pos (beq_iff_eq.mpr hid)] at hrq
      exact hrq ▸ hp
    · rw [if_neg (by simpa using hid)] at hrq
      exact hrq ▸ hl r hr
  | false =>
    rw [h] at hq
    simp at hq
    rcases hq with hq | hq
    · exact hl q hq
    · exact hq ▸ hp

theorem wf_foldl_upsert {pts : List Point} {base : List Point}
    (hb : ∀ q ∈ base, q.payload.id = q.id) (hp : ∀ q ∈ pts, q.payload.id = q.id) :
    ∀ q ∈ pts.foldl upsertPoint base, q.payload.id = q.id := by
  induction pts generalizing base with
  | nil => simpa using hb
  | cons p rest ih =>
    simp only [List.foldl_cons]
    apply ih
    · exact wf_upsertPoint hb (hp p (by simp))
    · intro q hq
      exact hp q (by simp [hq])

theorem keys_createEmbeddings (e : Embedder) (ty : EmbeddingType)
    (entries : List VectorStoreEntry) :
    (createEmbeddings e ty entries).map Prod.fst =
      (entries.filter (requiredPayload ty)).map VectorStoreEntry.id := by
  induction entries with
  | nil => simp [createEmbeddings]
  | cons en rest ih =>
    cases ty with
    | text =>
      cases h : en.text with
      | none =>
        simp [createEmbeddings, requiredPayload, h] at ih ⊢
        exact ih
      | some t =>
        simp [createEmbeddings, requiredPayload, h] at ih ⊢
        exact ih
    | image =>
      cases h : en.image with
      | none =>
        simp [createEmbeddings, requiredPayload, h] at ih ⊢
        exact ih
      | some img =>
        simp [createEmbeddings, requiredPayload, h] at ih ⊢
        exact ih

theorem dlookup_isSome_iff {α : Type} (l : List (String × α)) (k : String) :
    (dlookup l k).isSome = true ↔ k ∈ l.map Prod.fst := by
  unfold dlookup
  rw [lookup_isSome_iff]
  simp

theorem getCollection_setCollection (st : ClientState) (n : String) (c : Collection) :
    getCollection (setCollection st n c) n = some c := by
  unfold getCollection setCollection
  exact lookup_upsertAssoc_self st.collections n c

theorem pointsOf_setCollection (st : ClientState) (n : String) (c : Collection) :
    pointsOf (setCollection st n c) n = c.points := by
  unfold pointsOf
  rw [getCollection_setCollection]

theorem getCollection_none_of_not_exists {st : ClientState} {n : String}
    (h : collectionExists st n = false) : getCollection st n = none := by
  unfold collectionExists at h
  cases hg : getCollection st n with
  | none => rfl
  | some c =>
    rw [hg] at h
    simp at h

theorem pointsOf_of_not_exists {st : ClientState} {n : String}
    (h : collectionExists st n = false) : pointsOf st n = [] := by
  unfold pointsOf
  rw [getCollection_none_of_not_exists h]

theorem stateWF_pointsOf {st : ClientState} {n : String} (h : stateWF st = true) :
    ∀ p ∈ pointsOf st n, p.payload.id = p.id := by
  intro p hp
  unfold pointsOf at hp
  cases hg : getCollection st n with
  | none =>
    rw [hg] at hp
    simp at hp
  | some c =>
    rw [hg] at hp
    unfold getCollection at hg
    have hmem : (n, c) ∈ st.collections := lookup_mem hg
    unfold stateWF at h
    have h2 := (List.all_eq_true.mp h) (n, c) hmem
    have h3 := (List.all_eq_true.mp h2) p hp
    exact beq_iff_eq.mp h3

theorem stateWF_setCollection {st : ClientState} {n : String} {c : Collection}
    (hst : stateWF st = true) (hc : ∀ p ∈ c.points, p.payload.id = p.id) :
    stateWF (setCollection st n c) = true := by
  unfold stateWF setCollection
  apply List.all_eq_true.mpr
  intro nc hnc
  rcases mem_upsertAssoc hnc with hm | hm
  · unfold stateWF at hst
    exact (List.all_eq_true.mp hst) nc hm
  · apply List.all_eq_true.mpr
    intro p hp
    rw [hm] at hp
    exact beq_iff_eq.mpr (hc p hp)

theorem specLeaves_paths_ne_nil (w : List (String × WhereVal)) :
    ∀ pv ∈ specLeaves w, pv.1 ≠ [] := by
  induction w using specLeaves.induct with
  | case1 => simp [specLeaves]
  | case2 k v rest ih =>
    intro pv hpv
    simp [specLeaves] at hpv
    rcases hpv with hpv | hpv
    · rw [hpv]
      simp
    · exact ih pv hpv
  | case3 k fs rest ihfs ih =>
    intro pv hpv
    simp [specLeaves] at hpv
    rcases hpv with ⟨p, sc, _, hpv⟩ | hpv
    · rw [← hpv]
      simp
    · exact ih pv hpv

theorem joinPath_cons (k : String) (p : List String) (hp : p ≠ []) :
    joinPath (k :: p) = k ++ "." ++ joinPath p := by
  cases p with
  | nil => exact absurd rfl hp
  | cons a rest => rfl

theorem flattenPairs_eq_specLeaves (pre : String) (w : List (String × WhereVal)) :
    flattenPairs pre w = (specLeaves w).map fun pv => (pre ++ joinPath pv.1, pv.2) := by
  induction pre, w using flattenPairs.induct with
  | case1 pre => simp [flattenPairs, specLeaves]
  | case2 pre k v rest ih =>
    simp [flattenPairs, specLeaves, ih, joinPath]
  | case3 pre k fs rest ihfs ih =>
    simp only [flattenPairs, specLeaves, ihfs, ih, List.map_append, List.map_map]
    congr 1
    apply List.map_congr_left
    intro pv hpv
    have hne : pv.1 ≠ [] := specLeaves_paths_ne_nil fs pv hpv
    simp [joinPath_cons pv.1.headI pv.1.tail]
    rw [joinPath_cons _ _ hne]
    simp [String.append_assoc]

theorem llmOr_lookup (base other : List (String × PyVal)) (k : String) :
    List.lookup k (llmOr base other) =
      (List.lookup k base).map fun bv =>
        match List.lookup k other with
        | some ov => if ov = PyVal.notGiven then bv else ov
        | none => bv := by
  induction base with
  | nil => simp [llmOr, List.lookup]
  | cons kv rest ih =>
    obtain ⟨k1, v1⟩ := kv
    cases hb : k == k1 with
    | true =>
      have hk : k = k1 := beq_iff_eq.mp hb
      cases ho : List.lookup k1 other with
      | none =>
        simp [llmOr, List.lookup, hk, ho]
      | some ov =>
        by_cases hng : ov = PyVal.notGiven
        · simp [llmOr, List.lookup, hk, ho, hng]
        · simp [llmOr, List.lookup, hk, ho, hng]
    | false =>
      have hk : ¬ k = k1 := by
        intro he
        rw [he] at hb
        simp at hb
      cases ho : List.lookup k1 other with
      | none =>
        simp [llmOr, List.lookup, hb, ho] at ih ⊢
        exact ih
      | some ov =>
        by_cases hng : ov = PyVal.notGiven
        · simp [llmOr, List.lookup, hb, ho, hng] at ih ⊢
          exact ih
        · simp [llmOr, List.lookup, hb, ho, hng] at ih ⊢
          exact ih

theorem storePoints_wf (s : QdrantVectorStore) (entries : List VectorStoreEntry) :
    ∀ q ∈ storePoints s entries, q.payload.id = q.id := by
  intro q hq
  rcases List.mem_filterMap.mp hq with ⟨en, _, hsome⟩
  cases hd : dlookup (createEmbeddings s.embedder s.embeddingType entries) en.id with
  | none =>
    rw [hd] at hsome
    simp at hsome
  | some vec =>
    rw [hd] at hsome
    simp at hsome
    rw [← hsome]

theorem store_characterization (s : QdrantVectorStore) (st : ClientState)
    (entries : List VectorStoreEntry) (hne : entries ≠ [])
    (hembne : createEmbeddings s.embedder s.embeddingType entries ≠ []) :
    ∃ st', s.store st entries = Except.ok st' ∧
      pointsOf st' s.indexName =
        (storePoints s entries).foldl upsertPoint (pointsOf st s.indexName) ∧
      (stateWF st = true → stateWF st' = true) := by
  have hisEmpty : entries.isEmpty = false := by
    cases entries with
    | nil => exact absurd rfl hne
    | cons e rest => rfl
  cases hcoll : collectionExists st s.indexName with
  | true =>
    obtain ⟨c, hc⟩ : ∃ c, getCollection st s.indexName = some c := by
      unfold collectionExists at hcoll
      cases hg : getCollection st s.indexName with
      | none =>
        rw [hg] at hcoll
        simp at hcoll
      | some c => exact ⟨c, rfl⟩
    have hpointsOf : pointsOf st s.indexName = c.points := by
      unfold pointsOf
      rw [hc]
    have hstore : s.store st entries =
        uploadPoints st s.indexName (storePoints s entries) := by
      unfold QdrantVectorStore.store
      simp only [hisEmpty, hcoll, Bool.false_eq_true, if_false, if_true]
      rfl
    have hupload : uploadPoints st s.indexName (storePoints s entries) =
        Except.ok (setCollection st s.indexName
          (Collection.mk c.vectorSize c.distance
            ((storePoints s entries).foldl upsertPoint c.points))) := by
      unfold uploadPoints
      rw [hc]
    refine ⟨setCollection st s.indexName
        (Collection.mk c.vectorSize c.distance
          ((storePoints s entries).foldl upsertPoint c.points)), ?_, ?_, ?_⟩
    · rw [hstore, hupload]
    · rw [pointsOf_setCollection, hpointsOf]
    · intro hwf
      apply stateWF_setCollection hwf
      intro p hp
      apply wf_foldl_upsert ?base ?new p hp
      case base =>
        intro q hq
        apply stateWF_pointsOf hwf
        rw [hpointsOf]
        exact hq
      case new => exact storePoints_wf s entries
  | false =>
    have hpointsOf : pointsOf st s.indexName = [] := pointsOf_of_not_exists hcoll
    obtain ⟨kv, hkv⟩ :
        ∃ kv, (createEmbeddings s.embedder s.embeddingType entries).head? = some kv := by
      cases hemb2 : createEmbeddings s.embedder s.embeddingType entries with
      | nil => exact absurd hemb2 hembne
      | cons kv tl => exact ⟨kv, rfl⟩
    have hstore : s.store st entries =
        uploadPoints (createCollection st s.indexName kv.2.length s.distanceMethod)
          s.indexName (storePoints s entries) := by
      unfold QdrantVectorStore.store
      simp only [hisEmpty, hcoll, hkv, Bool.false_eq_true, if_false]
      rfl
    have hc1 : getCollection (createCollection st s.indexName kv.2.length s.distanceMethod)
        s.indexName = some (Collection.mk kv.2.length s.distanceMethod []) := by
      unfold createCollection
      exact getCollection_setCollection st s.indexName _
    have hupload : uploadPoints (createCollection st s.indexName kv.2.length s.distanceMethod)
        s.indexName (storePoints s entries) =
        Except.ok (setCollection (createCollection st s.indexName kv.2.length s.distanceMethod)
          s.indexName
          (Collection.mk kv.2.length s.distanceMethod
            ((storePoints s entries).foldl upsertPoint []))) := by
      unfold uploadPoints
      rw [hc1]
    refine ⟨setCollection (createCollection st s.indexName kv.2.length s.distanceMethod)
        s.indexName
        (Collection.mk kv.2.length s.distanceMethod
          ((storePoints s entries).foldl upsertPoint [])), ?_, ?_, ?_⟩
    · rw [hstore, hupload]
    · rw [pointsOf_setCollection, hpointsOf]
    · intro hwf
      have hwf1 : stateWF (createCollection st s.indexName kv.2.length s.distanceMethod) = true := by
        apply stateWF_setCollection hwf
        intro p hp
        simp at hp
      apply stateWF_setCollection hwf1
      intro p hp
      apply wf_foldl_upsert ?base2 ?new2 p hp
      case base2 =>
        intro q hq
        simp at hq
      case new2 => exact storePoints_wf s entries

theorem list_result_mem (s : QdrantVectorStore) (sim : List ℚ → List ℚ → ℚ)
    (st : ClientState) (w : Option WhereQuery) (limit : Option Nat) (offset : Nat)
    (res : List VectorStoreEntry) (h : s.list sim st w limit offset = Except.ok res) :
    ∀ e2 ∈ res, ∃ p ∈ pointsOf st s.indexName, e2 = p.payload := by
  intro e2 he2
  unfold QdrantVectorStore.list at h
  cases hcoll : collectionExists st s.indexName with
  | false =>
    rw [hcoll] at h
    simp at h
    rw [h] at he2
    simp at he2
  | true =>
    obtain ⟨c, hc⟩ : ∃ c, getCollection st s.indexName = some c := by
      unfold collectionExists at hcoll
      cases hg : getCollection st s.indexName with
      | none =>
        rw [hg] at hcoll
        simp at hcoll
      | some c => exact ⟨c, rfl⟩
    have hpointsOf : pointsOf st s.indexName = c.points := by
      unfold pointsOf
      rw [hc]
    rw [hcoll] at h
    unfold execQueryPoints listArgs at h
    cases w with
    | none =>
      simp [hc, Except.map, List.map_map] at h
      rw [← h] at he2
      have hp0 := List.mem_of_mem_take he2
      have hp1 := List.mem_of_mem_drop hp0
      rcases List.mem_map.mp hp1 with ⟨p, hp, hpe⟩
      simp at hpe
      rw [hpointsOf]
      exact ⟨p, hp, hpe.symm⟩
    | some wq =>
      simp [hc, Except.map, List.map_map] at h
      rw [← h] at he2
      have hp0 := List.mem_of_mem_take he2
      have hp1 := List.mem_of_mem_drop hp0
      rcases List.mem_map.mp hp1 with ⟨p, hp, hpe⟩
      simp at hpe
      have hp3 := List.mem_of_mem_filter hp
      rw [hpointsOf]
      exact ⟨p, hp3, hpe.symm⟩

/-- Claim C7: for every nested equality filter with scalar leaves, the filter
translation produces a conjunction of exactly one field-equals-value condition
per leaf whose key is the string `metadata.` followed by the dot-joined path
of nested keys; in particular the nested example yields the single condition
on `metadata.category.sub` and the flat two-leaf example a two-condition
conjunction. -/
theorem C7_filter_translation :
    (∀ w : WhereQuery, (createQdrantFilter w).must =
        (specLeaves w).map fun pv =>
          FieldCondition.mk ("metadata." ++ joinPath pv.1) pv.2) ∧
    createQdrantFilter exFilterNested =
      Filter.mk [FieldCondition.mk "metadata.category.sub" (Scalar.str "x")] ∧
    createQdrantFilter exFilterFlat =
      Filter.mk [FieldCondition.mk "metadata.a" (Scalar.int 1),
        FieldCondition.mk "metadata.b" (Scalar.int 2)] := by
  refine ⟨?_, ?_, ?_⟩
  · intro w
    simp only [createQdrantFilter, flattenPairs_eq_specLeaves, List.map_map]
    apply List.map_congr_left
    intro pv _
    simp
  · simp [createQdrantFilter, exFilterNested, flattenPairs]
  · simp [createQdrantFilter, exFilterFlat, flattenPairs]

/-- Claim C3: the options merge takes the override's value for every field the
override carries as anything other than the NOT_GIVEN sentinel (an explicit
null included), and the base's value when the override carries the sentinel;
the merge builds a new association list and, the embedding being pure, changes
neither operand.  On the spec's example, defaults with k 5 and unset max
distance merged with an override of unset k and max distance one fifth give
k 5 and max distance one fifth. -/
theorem C3_options_merge :
    (∀ (base other : List (String × PyVal)) (k : String),
        List.lookup k (llmOr base other) =
          (List.lookup k base).map fun bv =>
            match List.lookup k other with
            | some ov => if ov = PyVal.notGiven then bv else ov
            | none => bv) ∧
    llmOr llmDefaultsEx llmOverrideEx =
      [("k", PyVal.int 5), ("max_distance", PyVal.rat (1 / 5))] :=
  ⟨llmOr_lookup, rfl⟩

/-- Claim C2 (counterexample): with a concrete max distance of zero — a value
inside the unit interval, not the unset sentinel — the merged options carry
that value, yet the threshold passed to the backend is omitted (none) rather
than one minus zero, because the code tests Python truthiness and zero is
falsy. -/
theorem C2_threshold_zero_counterexample :
    (mergedOptions sZeroDist none).maxDistance = OptField.value (0 : ℚ) ∧
    (0 : ℚ) ∈ Set.Icc (0 : ℚ) 1 ∧
    (retrieveArgs sZeroDist "q" none).scoreThreshold ≠ some (1 - (0 : ℚ)) := by
  refine ⟨rfl, by simp, ?_⟩
  simp [retrieveArgs, mergedOptions, sZeroDist, zeroDistOptions, scoreThresholdOf]

/-- Claim C2 (amended): the backend threshold equals one minus the merged max
distance whenever the merged options carry a concrete nonzero max distance,
and the threshold is omitted exactly when the merged max distance is the
unset sentinel, an explicit null, or zero. -/
theorem C2_score_threshold (s : QdrantVectorStore) (text : String)
    (options : Option VectorStoreOptions) :
    (∀ d : ℚ, (mergedOptions s options).maxDistance = OptField.value d → d ≠ 0 →
        (retrieveArgs s text options).scoreThreshold = some (1 - d)) ∧
    ((retrieveArgs s text options).scoreThreshold = none ↔
      (mergedOptions s options).maxDistance = OptField.notGiven ∨
      (mergedOptions s options).maxDistance = OptField.null ∨
      (mergedOptions s options).maxDistance = OptField.value 0) := by
  constructor
  · intro d hd hdz
    simp [retrieveArgs, scoreThresholdOf, hd, hdz]
  · cases h : (mergedOptions s options).maxDistance with
    | notGiven => simp [retrieveArgs, scoreThresholdOf, h]
    | null => simp [retrieveArgs, scoreThresholdOf, h]
    | value d =>
      by_cases hz : d = 0
      · simp [retrieveArgs, scoreThresholdOf, h, hz]
      · simp [retrieveArgs, scoreThresholdOf, h, hz]

/-- Claim C2 (witness): a per-call override carrying the concrete max
distance one yields the threshold one minus one. -/
theorem C2_score_threshold_witness :
    (retrieveArgs sText "q"
        (some (VectorStoreOptions.mk OptField.notGiven (OptField.value 1)))).scoreThreshold =
      some (1 - (1 : ℚ)) :=
  (C2_score_threshold sText "q"
    (some (VectorStoreOptions.mk OptField.notGiven (OptField.value 1)))).1 1 rfl (by simp)

/-- Claim C6: a list call on a store whose collection is absent returns an
empty sequence for every filter, limit and offset, and raises no error. -/
theorem C6_list_absent (s : QdrantVectorStore) (sim : List ℚ → List ℚ → ℚ)
    (st : ClientState) (w : Option WhereQuery) (limit : Option Nat) (offset : Nat)
    (h : collectionExists st s.indexName = false) :
    s.list sim st w limit offset = Except.ok [] := by
  unfold QdrantVectorStore.list
  simp [h]

/-- Claim C6 (witness): listing the empty backend with a filter, a limit and
an offset yields the empty sequence. -/
theorem C6_list_absent_witness :
    collectionExists emptyState sText.indexName = false ∧
    sText.list simDot emptyState (some exFilterFlat) (some 3) 2 = Except.ok [] :=
  ⟨rfl, C6_list_absent sText simDot emptyState (some exFilterFlat) (some 3) 2 rfl⟩

/-- Claim C4 (counterexample): retrieve against a store whose collection has
never been written to does not return an empty result sequence; the code
issues the backend query without any existence check (unlike list), and the
backend's missing-collection failure propagates. -/
theorem C4_retrieve_absent_counterexample :
    collectionExists emptyState sText.indexName = false ∧
    sText.retrieve simDot emptyState "cat" none ≠ Except.ok [] ∧
    sText.retrieve simDot emptyState "cat" none = Except.error "collection not found" := by
  have he : sText.retrieve simDot emptyState "cat" none =
      Except.error "collection not found" := rfl
  refine ⟨rfl, ?_, he⟩
  rw [he]
  simp

/-- Claim C4 (amended): retrieve performs no collection-existence check; on an
absent collection the backend call is issued and the backend's
missing-collection failure is propagated unchanged, for every query text and
options. -/
theorem C4_retrieve_absent (s : QdrantVectorStore) (sim : List ℚ → List ℚ → ℚ)
    (st : ClientState) (text : String) (options : Option VectorStoreOptions)
    (h : collectionExists st s.indexName = false) :
    s.retrieve sim st text options = Except.error "collection not found" := by
  have hg : getCollection st s.indexName = none := by
    unfold collectionExists at h
    cases hg : getCollection st s.indexName with
    | none => rfl
    | some c =>
      rw [hg] at h
      simp at h
  unfold QdrantVectorStore.retrieve execQueryPoints
  simp [retrieveArgs, hg, Except.map]

/-- Claim C4 (witness): retrieve on the empty backend fails with the
backend's missing-collection error. -/
theorem C4_retrieve_absent_witness :
    collectionExists emptyState sText.indexName = false ∧
    sText.retrieve simDot emptyState "cat" none = Except.error "collection not found" :=
  ⟨rfl, C4_retrieve_absent sText simDot emptyState "cat" none rfl⟩

/-- Claim C1: the reduce round trip is not behaviorally equivalent: the
reconstruction drops the embedding type, so an image-type store comes back as
a text-type store; on an image-only entry and a fresh collection the original
store succeeds while the reconstructed store raises. -/
theorem C1_reduce_loses_embedding_type :
    sImage.embeddingType = EmbeddingType.image ∧
    (reconstructStore sImage.reduceArgs).embeddingType = EmbeddingType.text ∧
    isOkE (sImage.store emptyState [imageEntry]) = true ∧
    (reconstructStore sImage.reduceArgs).store emptyState [imageEntry] =
      Except.error "StopIteration" :=
  ⟨rfl, rfl, rfl, rfl⟩

/-- Claim C9: removing identities that are not present in the collection
succeeds without error and leaves the backend state — every other identity's
stored entry and hence the count — entirely unchanged. -/
theorem C9_remove_absent_ids (s : QdrantVectorStore) (st : ClientState)
    (ids : List String) (c : Collection)
    (hc : getCollection st s.indexName = some c)
    (hdisj : ∀ i ∈ ids, i ∉ c.points.map Point.id) :
    s.remove st ids = Except.ok st := by
  unfold QdrantVectorStore.remove
  rw [hc]
  have hfilter : (c.points.filter fun p => !(ids.contains p.id)) = c.points := by
    apply List.filter_eq_self.mpr
    intro p hp
    have hni : p.id ∉ ids := fun hin => hdisj p.id hin (List.mem_map_of_mem Point.id hp)
    simp [hni]
  show Except.ok (setCollection st s.indexName
      (Collection.mk c.vectorSize c.distance
        (c.points.filter fun p => !(ids.contains p.id)))) = Except.ok st
  rw [hfilter]
  have heta : Collection.mk c.vectorSize c.distance c.points = c := rfl
  rw [heta]
  unfold setCollection
  unfold getCollection at hc
  rw [upsertAssoc_of_lookup_eq hc]

/-- Claim C9 (witness): removing an id absent from a one-point collection
returns the state unchanged. -/
theorem C9_remove_absent_ids_witness :
    getCollection oneState sText.indexName = some cOne ∧
    (∀ i ∈ ["zz"], i ∉ cOne.points.map Point.id) ∧
    sText.remove oneState ["zz"] = Except.ok oneState :=
  ⟨rfl, by decide, C9_remove_absent_ids sText oneState ["zz"] cOne rfl (by decide)⟩

/-- Claim C10: a non-empty store call in which no entry carries the payload
required by the configured embedding type, against an absent collection,
raises (the code takes the first vector of an empty embedding map) instead of
performing a no-op. -/
theorem C10_store_unembeddable_raises (s : QdrantVectorStore) (st : ClientState)
    (entries : List VectorStoreEntry) (hne : entries ≠ [])
    (hall : ∀ e ∈ entries, requiredPayload s.embeddingType e = false)
    (habs : collectionExists st s.indexName = false) :
    s.store st entries = Except.error "StopIteration" := by
  have hemb : createEmbeddings s.embedder s.embeddingType entries = [] := by
    unfold createEmbeddings
    apply List.filterMap_eq_nil_iff.mpr
    intro en hen
    have hreq := hall en hen
    cases hty : s.embeddingType with
    | text =>
      rw [hty] at hreq
      unfold requiredPayload at hreq
      cases htext : en.text with
      | none => simp [htext]
      | some t =>
        rw [htext] at hreq
        simp at hreq
    | image =>
      rw [hty] at hreq
      unfold requiredPayload at hreq
      cases himg : en.image with
      | none => simp [himg]
      | some im =>
        rw [himg] at hreq
        simp at hreq
  cases entries with
  | nil => exact absurd rfl hne
  | cons e rest =>
    unfold QdrantVectorStore.store
    simp [hemb, habs]

/-- Claim C10 (witness): storing a single image-only entry with a text-type
store on the empty backend raises. -/
theorem C10_store_unembeddable_raises_witness :
    ([imageEntry] ≠ ([] : List VectorStoreEntry)) ∧
    (∀ e ∈ [imageEntry], requiredPayload sText.embeddingType e = false) ∧
    collectionExists emptyState sText.indexName = false ∧
    sText.store emptyState [imageEntry] = Except.error "StopIteration" :=
  ⟨by simp, by simp [requiredPayload, imageEntry, sText], rfl,
    C10_store_unembeddable_raises sText emptyState [imageEntry] (by simp)
      (by simp [requiredPayload, imageEntry, sText]) rfl⟩

/-- Claim C8: when the limit is unset, the effective limit passed to the
backend scan is the collection's current count, and the scan result is the
filtered point sequence with the offset skipped and the limit taken — so
offset and limit apply to the filtered set. -/
theorem C8_list_default_limit (s : QdrantVectorStore) (sim : List ℚ → List ℚ → ℚ)
    (st : ClientState) (w : Option WhereQuery) (offset : Nat)
    (h : collectionExists st s.indexName = true) :
    (listArgs s st w none offset).limit = OptField.value (countPoints st s.indexName) ∧
    s.list sim st w none offset = Except.ok
      ((((filteredPoints st s.indexName w).drop offset).take
          (countPoints st s.indexName)).map Point.payload) := by
  refine ⟨rfl, ?_⟩
  obtain ⟨c, hc⟩ : ∃ c, getCollection st s.indexName = some c := by
    unfold collectionExists at h
    cases hg : getCollection st s.indexName with
    | none =>
      rw [hg] at h
      simp at h
    | some c => exact ⟨c, rfl⟩
  unfold QdrantVectorStore.list execQueryPoints listArgs filteredPoints
  cases w with
  | none =>
    simp [h, hc, Except.map, List.map_map]
    rfl
  | some wq =>
    simp [h, hc, Except.map, List.map_map]
    rfl

/-- Claim C8 (witness): listing a one-point collection with no limit passes
the count one as the effective limit and returns the single payload. -/
theorem C8_list_default_limit_witness :
    collectionExists oneState sText.indexName = true ∧
    (listArgs sText oneState none none 0).limit =
      OptField.value (countPoints oneState sText.indexName) ∧
    sText.list simDot oneState none none 0 = Except.ok
      ((((filteredPoints oneState sText.indexName none).drop 0).take
          (countPoints oneState sText.indexName)).map Point.payload) :=
  ⟨rfl, (C8_list_default_limit sText simDot oneState none 0 rfl).1,
    (C8_list_default_limit sText simDot oneState none 0 rfl).2⟩

/-- Claim C5: a store call silently skips every entry that lacks the payload
required by the configured embedding type — such an entry is not written and
no error is raised — while entries that do have embeddings are stored; an
entry excluded this way (with a fresh identity) does not appear in any
subsequent list call. -/
theorem C5_store_skips_unembeddable (s : QdrantVectorStore) (sim : List ℚ → List ℚ → ℚ)
    (st : ClientState) (entries : List VectorStoreEntry)
    (hnd : (entries.map VectorStoreEntry.id).Nodup)
    (hex : ∃ e ∈ entries, requiredPayload s.embeddingType e = true)
    (hwf : stateWF st = true) :
    ∃ st', s.store st entries = Except.ok st' ∧
      (∀ en ∈ entries, requiredPayload s.embeddingType en = true →
          en.id ∈ (pointsOf st' s.indexName).map Point.id) ∧
      (∀ en ∈ entries, requiredPayload s.embeddingType en = false →
          en.id ∉ (pointsOf st s.indexName).map Point.id →
          en.id ∉ (pointsOf st' s.indexName).map Point.id) ∧
      (∀ en ∈ entries, requiredPayload s.embeddingType en = false →
          en.id ∉ (pointsOf st s.indexName).map Point.id →
          ∀ w limit offset res, s.list sim st' w limit offset = Except.ok res →
            ∀ e2 ∈ res, e2.id ≠ en.id) := by
  obtain ⟨e0, he0, he0req⟩ := hex
  have hne : entries ≠ [] := by
    intro hnil
    rw [hnil] at he0
    simp at he0
  have hkeys : (createEmbeddings s.embedder s.embeddingType entries).map Prod.fst =
      (entries.filter (requiredPayload s.embeddingType)).map VectorStoreEntry.id :=
    keys_createEmbeddings s.embedder s.embeddingType entries
  have hembne : createEmbeddings s.embedder s.embeddingType entries ≠ [] := by
    intro hnil
    rw [hnil] at hkeys
    have hm1 : e0 ∈ entries.filter (requiredPayload s.embeddingType) :=
      List.mem_filter.mpr ⟨he0, he0req⟩
    have hm2 : e0.id ∈ (entries.filter (requiredPayload s.embeddingType)).map
        VectorStoreEntry.id := List.mem_map_of_mem VectorStoreEntry.id hm1
    rw [← hkeys] at hm2
    simp at hm2
  obtain ⟨st', hstore, hpoints, hwfimp⟩ := store_characterization s st entries hne hembne
  have hpts_mem : ∀ en ∈ entries, requiredPayload s.embeddingType en = true →
      en.id ∈ (storePoints s entries).map Point.id := by
    intro en hen hr
    have hs : (dlookup (createEmbeddings s.embedder s.embeddingType entries) en.id).isSome
        = true := by
      rw [dlookup_isSome_iff, hkeys]
      exact List.mem_map_of_mem VectorStoreEntry.id (List.mem_filter.mpr ⟨hen, hr⟩)
    cases hd : dlookup (createEmbeddings s.embedder s.embeddingType entries) en.id with
    | none =>
      rw [hd] at hs
      simp at hs
    | some vec =>
      apply List.mem_map.mpr
      refine ⟨Point.mk en.id vec en, ?_, rfl⟩
      apply List.mem_filterMap.mpr
      refine ⟨en, hen, ?_⟩
      rw [hd]
      rfl
  have hnotmem_keys : ∀ en ∈ entries, requiredPayload s.embeddingType en = false →
      en.id ∉ (createEmbeddings s.embedder s.embeddingType entries).map Prod.fst := by
    intro en hen hr hmem
    rw [hkeys] at hmem
    rcases List.mem_map.mp hmem with ⟨en2, hen2, hid⟩
    have hen2f := List.mem_filter.mp hen2
    have heq : en2 = en :=
      List.inj_on_of_nodup_map hnd hen2f.1 hen hid
    rw [heq] at hen2f
    rw [hen2f.2] at hr
    simp at hr
  have hpts_sub : ∀ x ∈ (storePoints s entries).map Point.id,
      x ∈ (createEmbeddings s.embedder s.embeddingType entries).map Prod.fst := by
    intro x hx
    rcases List.mem_map.mp hx with ⟨p, hp, hpx⟩
    rcases List.mem_filterMap.mp hp with ⟨en, _, hsome⟩
    cases hd : dlookup (createEmbeddings s.embedder s.embeddingType entries) en.id with
    | none =>
      rw [hd] at hsome
      simp at hsome
    | some vec =>
      rw [hd] at hsome
      simp at hsome
      have hpid : p.id = en.id := by
        rw [← hsome]
      have hs : (dlookup (createEmbeddings s.embedder s.embeddingType entries) en.id).isSome
          = true := by
        rw [hd]
        rfl
      rw [← hpx, hpid]
      exact (dlookup_isSome_iff _ _).mp hs
  have hfresh : ∀ en ∈ entries, requiredPayload s.embeddingType en = false →
      en.id ∉ (pointsOf st s.indexName).map Point.id →
      en.id ∉ (pointsOf st' s.indexName).map Point.id := by
    intro en hen hr hnotin hmem
    rw [hpoints] at hmem
    rcases (mem_ids_foldl_upsert (storePoints s entries)
        (pointsOf st s.indexName) en.id).mp hmem with hmem | hmem
    · exact hnotin hmem
    · exact hnotmem_keys en hen hr (hpts_sub en.id hmem)
  refine ⟨st', hstore, ?_, hfresh, ?_⟩
  · intro en hen hr
    rw [hpoints]
    exact (mem_ids_foldl_upsert (storePoints s entries)
      (pointsOf st s.indexName) en.id).mpr (Or.inr (hpts_mem en hen hr))
  · intro en hen hr hnotin w limit offset res hlist e2 he2 heq
    obtain ⟨p, hp, hpe⟩ := list_result_mem s sim st' w limit offset res hlist e2 he2
    have hpid : p.payload.id = p.id := stateWF_pointsOf (hwfimp hwf) p hp
    apply hfresh en hen hr hnotin
    rw [← heq, hpe, hpid]
    exact List.mem_map_of_mem Point.id hp

/-- Claim C5 (witness): storing a text entry together with an image-only
entry in a text-type store on the empty backend succeeds, keeps the text
entry, skips the image-only entry, and a subsequent list does not show the
image-only entry. -/
theorem C5_store_skips_unembeddable_witness :
    ([textEntry, imageEntry].map VectorStoreEntry.id).Nodup ∧
    (∃ e ∈ [textEntry, imageEntry], requiredPayload sText.embeddingType e = true) ∧
    stateWF emptyState = true ∧
    (∃ st', sText.store emptyState [textEntry, imageEntry] = Except.ok st' ∧
      (∀ en ∈ [textEntry, imageEntry], requiredPayload sText.embeddingType en = true →
          en.id ∈ (pointsOf st' sText.indexName).map Point.id) ∧
      (∀ en ∈ [textEntry, imageEntry], requiredPayload sText.embeddingType en = false →
          en.id ∉ (pointsOf emptyState sText.indexName).map Point.id →
          en.id ∉ (pointsOf st' sText.indexName).map Point.id) ∧
      (∀ en ∈ [textEntry, imageEntry], requiredPayload sText.embeddingType en = false →
          en.id ∉ (pointsOf emptyState sText.indexName).map Point.id →
          ∀ w limit offset res, sText.list simDot st' w limit offset = Except.ok res →
            ∀ e2 ∈ res, e2.id ≠ en.id)) :=
  ⟨by decide, ⟨textEntry, by simp, rfl⟩, rfl,
    C5_store_skips_unembeddable sText simDot emptyState [textEntry, imageEntry]
      (by decide) ⟨textEntry, by simp, rfl⟩ rfl⟩

end Ragbits
